import Mathlib

/-!
# Shallow embedding of the taxi-simulation engine (src/main.rs)

The Rust program is a discrete-time dispatch simulation.  We embed it as
follows:

* `Uuid` identities (for both taxis and requests) are modelled as natural
  numbers drawn from a single fresh-identity counter: `World.new` creates
  the taxi pool with identities `0 .. number_of_taxis - 1` and starts the
  counter `nextId` there, and every `Request::new` call takes the current
  counter value and bumps it.  This models exactly the guarantee the code
  relies on: ids are globally unique, fresh at creation, immutable.
* `u64` budgets become `Nat`.  The Rust decrements `fulfillment_time -= 1`
  and `remaining_waiting_time -= 1` become `Nat` subtraction; the safety
  claim about them is proved separately (the operands are strictly
  positive in every reachable state, so truncation never differs from the
  machine semantics).
* The `f64` spawn probability becomes `ℚ`.  `rng.gen_bool(p)` is modelled
  by an oracle `draws : Nat → Bool` consumed at index `rngIdx`; Rust's
  `gen_bool` panics when `p` lies outside `[0, 1]`, which we model by the
  spawn step returning `none`.
* Panics (`gen_bool` out of range, the `.expect` in `cleanup_requests`)
  are modelled by `Option`-valued operations: `none` is an abort.
-/

/-- Embeds Rust `struct Request` (id, remaining_waiting_time,
assigned_taxi, fulfillment_time). -/
structure Request where
  id : Nat
  remaining_waiting_time : Nat
  assigned_taxi : Option Nat
  fulfillment_time : Nat
deriving DecidableEq

/-- Embeds Rust `struct Taxi` (id, is_occupied). -/
structure Taxi where
  id : Nat
  is_occupied : Bool
deriving DecidableEq

/-- Embeds `Request::new`: fresh id, both budgets 100, no taxi.  The fresh
identity is passed in by the caller (the `World` fresh-id counter). -/
def Request.new (id : Nat) : Request :=
  { id := id, remaining_waiting_time := 100, assigned_taxi := none, fulfillment_time := 100 }

/-- Embeds `Request::is_alive`:
`self.remaining_waiting_time > 0 && self.fulfillment_time > 0`. -/
def Request.is_alive (r : Request) : Bool :=
  decide (0 < r.remaining_waiting_time) && decide (0 < r.fulfillment_time)

/-- Embeds Rust `struct World`.  `draws`/`rngIdx` model the `SmallRng`
stream, `nextId` the `Uuid::new_v4` freshness. -/
structure World where
  runtime : Nat
  age : Nat
  request_spawn_chance : ℚ
  max_active_requests : Nat
  taxis : List Taxi
  active_requests : List Request
  archived_requests : List Request
  draws : Nat → Bool
  rngIdx : Nat
  nextId : Nat

/-- Embeds `World::new`: the taxi pool is created with `number_of_taxis`
fresh taxis (ids `0..`), `age = 0`, empty request lists, and the
configuration stored unchanged (the Rust constructor performs no
validation or clamping of any argument). -/
def World.new (runtime : Nat) (request_spawn_chance : ℚ) (max_active_requests : Nat)
    (number_of_taxis : Nat) (draws : Nat → Bool) : World :=
  { runtime := runtime
    age := 0
    request_spawn_chance := request_spawn_chance
    max_active_requests := max_active_requests
    taxis := (List.range number_of_taxis).map (fun i => { id := i, is_occupied := false })
    active_requests := []
    archived_requests := []
    draws := draws
    rngIdx := 0
    nextId := number_of_taxis }

/-- Embeds `World::maybe_spawn_request`.  Rust:
`if len < max && rng.gen_bool(p) { push Request::new() }`.
The `&&` short-circuits: the rng is consulted only when the capacity test
passes.  `gen_bool(p)` panics (`none`) when `p ∉ [0,1]`; otherwise it
consumes one oracle draw. -/
def World.maybe_spawn_request (w : World) : Option World :=
  if w.active_requests.length < w.max_active_requests then
    if 0 ≤ w.request_spawn_chance ∧ w.request_spawn_chance ≤ 1 then
      if w.draws w.rngIdx then
        some { w with rngIdx := w.rngIdx + 1
                      active_requests := w.active_requests ++ [Request.new w.nextId]
                      nextId := w.nextId + 1 }
      else
        some { w with rngIdx := w.rngIdx + 1 }
    else none
  else some w

/-- Embeds `self.taxis.iter_mut().find(|t| !t.is_occupied)` followed by
`r.assigned_taxi = Some(taxi.id); taxi.is_occupied = true`: finds the
first unoccupied taxi in pool order, returns its id together with the
pool in which that taxi is now occupied; `none` when every taxi is
occupied. -/
def firstFree : List Taxi → Option (Nat × List Taxi)
  | [] => none
  | t :: ts =>
    if t.is_occupied then
      (firstFree ts).map (fun p => (p.1, t :: p.2))
    else
      some (t.id, { t with is_occupied := true } :: ts)

/-- Embeds the loop of `World::distribute_unfulfilled_requests`: the
requests are visited in order, already-assigned ones are skipped (the
`filter`), an unassigned one is bound to the first unoccupied taxi, and
when no unoccupied taxi exists the loop `break`s, leaving the remaining
requests untouched. -/
def assignLoop : List Request → List Taxi → List Request × List Taxi
  | [], ts => ([], ts)
  | r :: rs, ts =>
    if r.assigned_taxi.isSome then
      let p := assignLoop rs ts
      (r :: p.1, p.2)
    else
      match firstFree ts with
      | none => (r :: rs, ts)
      | some (tid, ts1) =>
        let p := assignLoop rs ts1
        ({ r with assigned_taxi := some tid } :: p.1, p.2)

/-- Embeds `World::distribute_unfulfilled_requests`. -/
def World.distribute_unfulfilled_requests (w : World) : World :=
  let p := assignLoop w.active_requests w.taxis
  { w with active_requests := p.1, taxis := p.2 }

/-- One iteration of the `World::update_requests` loop body:
decrement `fulfillment_time` when a taxi is assigned, otherwise
`remaining_waiting_time`. -/
def Request.tickDown (r : Request) : Request :=
  if r.assigned_taxi.isSome then
    { r with fulfillment_time := r.fulfillment_time - 1 }
  else
    { r with remaining_waiting_time := r.remaining_waiting_time - 1 }

/-- Embeds `World::update_requests`. -/
def World.update_requests (w : World) : World :=
  { w with active_requests := w.active_requests.map Request.tickDown }

/-- Embeds `self.taxis.iter_mut().find(|t| t.id == taxi_id)` followed by
`taxi.is_occupied = false`, with the `.expect` panic as `none`: frees the
first taxi whose id matches, `none` when there is no such taxi. -/
def freeTaxi : List Taxi → Nat → Option (List Taxi)
  | [], _ => none
  | t :: ts, tid =>
    if t.id = tid then
      some ({ t with is_occupied := false } :: ts)
    else
      (freeTaxi ts tid).map (fun ts1 => t :: ts1)

/-- Embeds the first pass of `World::cleanup_requests`: walk the active
requests; every dead one is cloned onto the archive and, when it holds a
taxi assignment, that taxi is looked up by id (panicking — `none` — when
absent) and freed.  Returns the updated pool and archive. -/
def cleanupLoop : List Request → List Taxi → List Request → Option (List Taxi × List Request)
  | [], ts, arch => some (ts, arch)
  | r :: rs, ts, arch =>
    if r.is_alive then
      cleanupLoop rs ts arch
    else
      match r.assigned_taxi with
      | none => cleanupLoop rs ts (arch ++ [r])
      | some tid => (freeTaxi ts tid).bind (fun ts1 => cleanupLoop rs ts1 (arch ++ [r]))

/-- Embeds `World::cleanup_requests`: the archiving/taxi-freeing pass
followed by `active_requests.retain(|r| r.is_alive())`. -/
def World.cleanup_requests (w : World) : Option World :=
  (cleanupLoop w.active_requests w.taxis w.archived_requests).map (fun p =>
    { w with taxis := p.1
             archived_requests := p.2
             active_requests := w.active_requests.filter Request.is_alive })

/-- The four per-tick steps of the `run_till_done` loop body, in source
order: generate → match → update → archive. -/
def World.tickSteps (w : World) : Option World :=
  match w.maybe_spawn_request with
  | none => none
  | some w1 => (w1.distribute_unfulfilled_requests.update_requests).cleanup_requests

/-- One full iteration of the `run_till_done` loop body: `self.age += 1`
followed by the four steps (the `info()` print is pure output and is
omitted). -/
def World.tick (w : World) : Option World :=
  World.tickSteps { w with age := w.age + 1 }

/-- The `while self.age <= self.runtime` loop, with explicit fuel.  Each
iteration raises `age` by exactly 1 and leaves `runtime` unchanged, so
`runtime + 1 - age` units of fuel reproduce the while loop exactly
(`runAux_fuel_exact` below proves fuel irrelevance beyond that bound). -/
def runAux : Nat → World → Option World
  | 0, w => some w
  | n + 1, w =>
    if w.age ≤ w.runtime then
      (w.tick).bind (runAux n)
    else
      some w

/-- Embeds `World::run_till_done`. -/
def World.run_till_done (w : World) : Option World :=
  runAux (w.runtime + 1 - w.age) w

/-- States reachable at tick boundaries: a freshly constructed world, or
one full (non-panicking) loop iteration after a reachable state. -/
inductive Reachable : World → Prop
  | init (runtime : Nat) (chance : ℚ) (maxActive : Nat) (nTaxis : Nat) (draws : Nat → Bool) :
      Reachable (World.new runtime chance maxActive nTaxis draws)
  | step {w w' : World} : Reachable w → w.tick = some w' → Reachable w'

/-!
## Matcher specification (C3)

`distribute_unfulfilled_requests` is characterised against a declarative
description written from the claim: compute the ids of the unoccupied
taxis in pool order, hand them out to the unassigned requests in arrival
order until they run out (leaving already-assigned requests untouched and,
once the ids are exhausted, the remaining requests unchanged), and mark
exactly the handed-out taxis occupied.
-/

/-- The ids of the unoccupied taxis, in server-pool order. -/
def freeTaxiIds (ts : List Taxi) : List Nat :=
  (ts.filter (fun t => !t.is_occupied)).map (fun t => t.id)

/-- Claim-side description of the Matcher, request side: hand the free
taxi ids out to the unassigned requests in arrival order; when the ids
run out, the rest of the list is returned unchanged. -/
def handOut : List Nat → List Request → List Request
  | _, [] => []
  | ids, r :: rs =>
    if r.assigned_taxi.isSome then
      r :: handOut ids rs
    else
      match ids with
      | [] => r :: rs
      | tid :: rest => { r with assigned_taxi := some tid } :: handOut rest rs

/-- Claim-side description of the Matcher, taxi side: mark the first `k`
unoccupied taxis (in pool order) occupied. -/
def occupyFirst : Nat → List Taxi → List Taxi
  | 0, ts => ts
  | _, [] => []
  | k + 1, t :: ts =>
    if t.is_occupied then
      t :: occupyFirst (k + 1) ts
    else
      { t with is_occupied := true } :: occupyFirst k ts

/-- The number of unassigned requests in a list. -/
def unassignedCount (rs : List Request) : Nat :=
  rs.countP (fun r => r.assigned_taxi.isNone)

lemma firstFree_eq_none {ts : List Taxi} (h : firstFree ts = none) :
    freeTaxiIds ts = [] := by
  induction ts with
  | nil => rfl
  | cons t ts ih =>
    by_cases ht : t.is_occupied
    · cases hff : firstFree ts with
      | none =>
        have hstep : freeTaxiIds (t :: ts) = freeTaxiIds ts := by
          simp [freeTaxiIds, List.filter_cons, ht]
        rw [hstep]
        exact ih hff
      | some p => simp [firstFree, ht, hff] at h
    · simp [firstFree, ht] at h

lemma firstFree_eq_some {ts ts1 : List Taxi} {tid : Nat}
    (h : firstFree ts = some (tid, ts1)) :
    freeTaxiIds ts = tid :: freeTaxiIds ts1 ∧
      ∀ k, occupyFirst (k + 1) ts = occupyFirst k ts1 := by
  induction ts generalizing ts1 with
  | nil => simp [firstFree] at h
  | cons t ts ih =>
    by_cases ht : t.is_occupied
    · cases hff : firstFree ts with
      | none => simp [firstFree, ht, hff] at h
      | some p =>
        obtain ⟨tid2, ts2⟩ := p
        simp only [firstFree, ht, if_true, hff, Option.map, Option.some_inj,
          Prod.mk.injEq] at h
        obtain ⟨rfl, rfl⟩ := h
        obtain ⟨hids, hocc⟩ := ih hff
        constructor
        · have hstep : freeTaxiIds (t :: ts) = freeTaxiIds ts := by
            simp [freeTaxiIds, List.filter_cons, ht]
          have hstep2 : freeTaxiIds (t :: ts2) = freeTaxiIds ts2 := by
            simp [freeTaxiIds, List.filter_cons, ht]
          rw [hstep, hstep2]
          exact hids
        · intro k
          have h1 : occupyFirst (k + 1) (t :: ts) = t :: occupyFirst (k + 1) ts := by
            simp [occupyFirst, ht]
          have h2 : occupyFirst k (t :: ts2) = t :: occupyFirst k ts2 := by
            cases k with
            | zero => simp [occupyFirst]
            | succ j => simp [occupyFirst, ht]
          rw [h1, h2, hocc k]
    · simp only [firstFree, ht, if_false, Option.some_inj, Prod.mk.injEq,
        Bool.false_eq_true] at h
      obtain ⟨rfl, rfl⟩ := h
      constructor
      · simp [freeTaxiIds, List.filter_cons, ht]
      · intro k
        cases k with
        | zero => simp [occupyFirst, ht]
        | succ j => simp [occupyFirst, ht]

lemma assignLoop_eq (rs : List Request) (ts : List Taxi) :
    assignLoop rs ts =
      (handOut (freeTaxiIds ts) rs,
        occupyFirst (min (unassignedCount rs) (freeTaxiIds ts).length) ts) := by
  induction rs generalizing ts with
  | nil => simp [assignLoop, handOut, unassignedCount, occupyFirst]
  | cons r rs ih =>
    cases hrt : r.assigned_taxi with
    | some tid0 =>
      have huc : unassignedCount (r :: rs) = unassignedCount rs := by
        simp [unassignedCount, List.countP_cons, hrt]
      have hloop : assignLoop (r :: rs) ts = (r :: (assignLoop rs ts).1, (assignLoop rs ts).2) := by
        simp [assignLoop, hrt]
      have hhand : handOut (freeTaxiIds ts) (r :: rs) = r :: handOut (freeTaxiIds ts) rs := by
        simp [handOut, hrt]
      rw [hloop, hhand, huc, ih ts]
    | none =>
      have huc : unassignedCount (r :: rs) = unassignedCount rs + 1 := by
        simp [unassignedCount, List.countP_cons, hrt]
      cases hff : firstFree ts with
      | none =>
        have hids := firstFree_eq_none hff
        have hloop : assignLoop (r :: rs) ts = (r :: rs, ts) := by
          simp [assignLoop, hrt, hff]
        have hhand : handOut ([] : List Nat) (r :: rs) = r :: rs := by
          simp [handOut, hrt]
        rw [hloop, hids, hhand, huc]
        simp [occupyFirst]
      | some p =>
        obtain ⟨tid, ts1⟩ := p
        obtain ⟨hids, hocc⟩ := firstFree_eq_some hff
        have hloop : assignLoop (r :: rs) ts =
            ({ r with assigned_taxi := some tid } :: (assignLoop rs ts1).1,
              (assignLoop rs ts1).2) := by
          simp [assignLoop, hrt, hff]
        have hhand : handOut (tid :: freeTaxiIds ts1) (r :: rs)
            = { r with assigned_taxi := some tid } :: handOut (freeTaxiIds ts1) rs := by
          simp [handOut, hrt]
        rw [hloop, ih ts1, hids, hhand, huc]
        have hmin : min (unassignedCount rs + 1) (tid :: freeTaxiIds ts1).length
            = min (unassignedCount rs) (freeTaxiIds ts1).length + 1 := by
          simp [List.length_cons, Nat.succ_min_succ]
        rw [hmin, hocc]

lemma handOut_map_id (ids : List Nat) (rs : List Request) :
    (handOut ids rs).map (fun r => r.id) = rs.map (fun r => r.id) := by
  induction rs generalizing ids with
  | nil => rfl
  | cons r rs ih =>
    cases hrt : r.assigned_taxi with
    | some tid0 => simp [handOut, hrt, ih]
    | none =>
      cases ids with
      | nil => simp [handOut, hrt]
      | cons tid rest => simp [handOut, hrt, ih]

lemma handOut_length (ids : List Nat) (rs : List Request) :
    (handOut ids rs).length = rs.length := by
  have h := congrArg List.length (handOut_map_id ids rs)
  simpa using h

lemma handOut_mem {ids : List Nat} {rs : List Request} {r' : Request}
    (h : r' ∈ handOut ids rs) :
    ∃ r ∈ rs, r'.id = r.id ∧
      r'.remaining_waiting_time = r.remaining_waiting_time ∧
      r'.fulfillment_time = r.fulfillment_time ∧
      (r'.assigned_taxi = r.assigned_taxi ∨
        (r.assigned_taxi = none ∧ ∃ tid ∈ ids, r'.assigned_taxi = some tid)) := by
  induction rs generalizing ids with
  | nil => simp [handOut] at h
  | cons r rs ih =>
    cases hrt : r.assigned_taxi with
    | some tid0 =>
      rw [show handOut ids (r :: rs) = r :: handOut ids rs by simp [handOut, hrt]] at h
      rcases List.mem_cons.mp h with h1 | h1
      · exact ⟨r, List.mem_cons_self .., by simp [h1]⟩
      · obtain ⟨r0, hr0, hrest⟩ := ih h1
        exact ⟨r0, List.mem_cons_of_mem _ hr0, hrest⟩
    | none =>
      cases ids with
      | nil =>
        rw [show handOut ([] : List Nat) (r :: rs) = r :: rs by simp [handOut, hrt]] at h
        exact ⟨r', h, rfl, rfl, rfl, Or.inl rfl⟩
      | cons tid rest =>
        rw [show handOut (tid :: rest) (r :: rs)
            = { r with assigned_taxi := some tid } :: handOut rest rs by
          simp [handOut, hrt]] at h
        rcases List.mem_cons.mp h with h1 | h1
        · refine ⟨r, List.mem_cons_self .., ?_⟩
          subst h1
          exact ⟨rfl, rfl, rfl, Or.inr ⟨hrt, tid, List.mem_cons_self .., rfl⟩⟩
        · obtain ⟨r0, hr0, ha, hb, hc, hd⟩ := ih h1
          refine ⟨r0, List.mem_cons_of_mem _ hr0, ha, hb, hc, ?_⟩
          rcases hd with hd | ⟨hd1, tid1, htid1, hd2⟩
          · exact Or.inl hd
          · exact Or.inr ⟨hd1, tid1, List.mem_cons_of_mem _ htid1, hd2⟩

lemma handOut_count (ids : List Nat) (rs : List Request) (tid : Nat) :
    (handOut ids rs).countP (fun r => r.assigned_taxi == some tid)
      = rs.countP (fun r => r.assigned_taxi == some tid)
        + (ids.take (min (unassignedCount rs) ids.length)).count tid := by
  induction rs generalizing ids with
  | nil => simp [handOut, unassignedCount]
  | cons r rs ih =>
    cases hrt : r.assigned_taxi with
    | some tid0 =>
      rw [show handOut ids (r :: rs) = r :: handOut ids rs by simp [handOut, hrt]]
      rw [List.countP_cons, List.countP_cons, ih ids]
      have huc : unassignedCount (r :: rs) = unassignedCount rs := by
        simp [unassignedCount, List.countP_cons, hrt]
      rw [huc, hrt]
      omega
    | none =>
      cases ids with
      | nil =>
        rw [show handOut ([] : List Nat) (r :: rs) = r :: rs by simp [handOut, hrt]]
        simp
      | cons tid1 rest =>
        rw [show handOut (tid1 :: rest) (r :: rs)
            = { r with assigned_taxi := some tid1 } :: handOut rest rs by
          simp [handOut, hrt]]
        rw [List.countP_cons, List.countP_cons, ih rest]
        have huc : unassignedCount (r :: rs) = unassignedCount rs + 1 := by
          simp [unassignedCount, List.countP_cons, hrt]
        rw [huc, hrt]
        have hmin : min (unassignedCount rs + 1) (tid1 :: rest).length
            = min (unassignedCount rs) rest.length + 1 := by
          simp [List.length_cons, Nat.succ_min_succ]
        rw [hmin, List.take_succ_cons, List.count_cons]
        by_cases htid : tid1 = tid
        · simp [htid]
          omega
        · simp [htid, Ne.symm htid]

lemma mem_freeTaxiIds {ts : List Taxi} {x : Nat} :
    x ∈ freeTaxiIds ts ↔ ∃ t ∈ ts, t.is_occupied = false ∧ t.id = x := by
  simp [freeTaxiIds, List.mem_map, List.mem_filter, Bool.not_eq_true', and_assoc]

lemma freeTaxiIds_subset_ids {ts : List Taxi} {x : Nat} (h : x ∈ freeTaxiIds ts) :
    x ∈ ts.map (fun t => t.id) := by
  obtain ⟨t, ht, _, rfl⟩ := mem_freeTaxiIds.mp h
  exact List.mem_map_of_mem _ ht

lemma freeTaxiIds_nodup {ts : List Taxi} (h : (ts.map (fun t => t.id)).Nodup) :
    (freeTaxiIds ts).Nodup := by
  have hsub : (freeTaxiIds ts).Sublist (ts.map (fun t => t.id)) := by
    unfold freeTaxiIds
    exact (List.filter_sublist ts).map _
  exact hsub.nodup h

lemma occupyFirst_map_id (k : Nat) (ts : List Taxi) :
    (occupyFirst k ts).map (fun t => t.id) = ts.map (fun t => t.id) := by
  induction ts generalizing k with
  | nil => cases k <;> simp [occupyFirst]
  | cons t ts ih =>
    cases k with
    | zero => simp [occupyFirst]
    | succ j =>
      by_cases ht : t.is_occupied
      · simp [occupyFirst, ht, ih]
      · simp [occupyFirst, ht, ih]

lemma occupyFirst_eq_map (k : Nat) (ts : List Taxi)
    (hnd : (ts.map (fun t => t.id)).Nodup) :
    occupyFirst k ts = ts.map (fun t =>
      if t.id ∈ (freeTaxiIds ts).take k then { t with is_occupied := true } else t) := by
  induction ts generalizing k with
  | nil => cases k <;> simp [occupyFirst]
  | cons t ts ih =>
    have hnd1 : (ts.map (fun t => t.id)).Nodup := (List.nodup_cons.mp hnd).2
    have hnotin : t.id ∉ ts.map (fun t => t.id) := (List.nodup_cons.mp hnd).1
    by_cases ht : t.is_occupied
    · have hfree : freeTaxiIds (t :: ts) = freeTaxiIds ts := by
        simp [freeTaxiIds, List.filter_cons, ht]
      cases k with
      | zero =>
        have : ∀ t' ∈ t :: ts,
            (if t'.id ∈ (freeTaxiIds (t :: ts)).take 0 then { t' with is_occupied := true }
              else t') = t' := by
          intro t' _
          simp
        rw [List.map_congr_left this, List.map_id', occupyFirst]
      | succ j =>
        have hhead : (if t.id ∈ (freeTaxiIds (t :: ts)).take (j + 1)
            then { t with is_occupied := true } else t) = t := by
          have : t.id ∉ (freeTaxiIds (t :: ts)).take (j + 1) := by
            intro hmem
            rw [hfree] at hmem
            exact hnotin (freeTaxiIds_subset_ids (List.take_subset _ _ hmem))
          simp [this]
        rw [List.map_cons, hhead]
        have hstep : occupyFirst (j + 1) (t :: ts) = t :: occupyFirst (j + 1) ts := by
          simp [occupyFirst, ht]
        rw [hstep, ih (j + 1) hnd1, hfree]
    · have hfree : freeTaxiIds (t :: ts) = t.id :: freeTaxiIds ts := by
        simp [freeTaxiIds, List.filter_cons, ht]
      cases k with
      | zero =>
        have : ∀ t' ∈ t :: ts,
            (if t'.id ∈ (freeTaxiIds (t :: ts)).take 0 then { t' with is_occupied := true }
              else t') = t' := by
          intro t' _
          simp
        rw [List.map_congr_left this, List.map_id', occupyFirst]
      | succ j =>
        rw [hfree, List.take_succ_cons, List.map_cons]
        have hhead : (if t.id ∈ t.id :: (freeTaxiIds ts).take j
            then { t with is_occupied := true } else t) = { t with is_occupied := true } := by
          simp
        rw [hhead]
        have hstep : occupyFirst (j + 1) (t :: ts)
            = { t with is_occupied := true } :: occupyFirst j ts := by
          simp [occupyFirst, ht]
        rw [hstep, ih j hnd1]
        congr 1
        apply List.map_congr_left
        intro t' ht'
        have : t'.id ≠ t.id := by
          intro heq
          exact hnotin (heq ▸ List.mem_map_of_mem _ ht')
        simp [this]

/-- The assigned-taxi ids of the dead requests in a list, in order: these
are exactly the taxis `cleanup_requests` frees. -/
def deadTaxiIds (rs : List Request) : List Nat :=
  (rs.filter (fun r => !r.is_alive)).filterMap (fun r => r.assigned_taxi)

lemma freeTaxi_eq_none {ts : List Taxi} {tid : Nat}
    (h : tid ∉ ts.map (fun t => t.id)) : freeTaxi ts tid = none := by
  induction ts with
  | nil => rfl
  | cons t ts ih =>
    have ht : t.id ≠ tid := by
      intro heq
      exact h (by simp [heq])
    have hts : tid ∉ ts.map (fun t => t.id) := by
      intro hmem
      exact h (List.mem_cons_of_mem _ hmem)
    simp [freeTaxi, ht, ih hts]

lemma freeTaxi_map_id {ts ts1 : List Taxi} {tid : Nat}
    (h : freeTaxi ts tid = some ts1) :
    ts1.map (fun t => t.id) = ts.map (fun t => t.id) := by
  induction ts generalizing ts1 with
  | nil => simp [freeTaxi] at h
  | cons t ts ih =>
    by_cases ht : t.id = tid
    · simp only [freeTaxi, ht, if_true, Option.some_inj] at h
      subst h
      simp [ht]
    · simp only [freeTaxi, ht, if_false] at h
      cases hft : freeTaxi ts tid with
      | none => rw [hft] at h; simp at h
      | some ts2 =>
        rw [hft] at h
        simp only [Option.map, Option.some_inj] at h
        subst h
        simp [ih hft]

lemma freeTaxi_eq_map {ts : List Taxi} {tid : Nat}
    (hnd : (ts.map (fun t => t.id)).Nodup) (hmem : ∃ t ∈ ts, t.id = tid) :
    freeTaxi ts tid = some (ts.map (fun t =>
      if t.id = tid then { t with is_occupied := false } else t)) := by
  induction ts with
  | nil => simp at hmem
  | cons t ts ih =>
    have hnd1 : (ts.map (fun t => t.id)).Nodup := (List.nodup_cons.mp hnd).2
    have hnotin : t.id ∉ ts.map (fun t => t.id) := (List.nodup_cons.mp hnd).1
    by_cases ht : t.id = tid
    · have htail : ∀ t' ∈ ts, (if t'.id = tid then { t' with is_occupied := false } else t') = t' := by
        intro t' ht'
        have : t'.id ≠ tid := by
          intro heq
          exact hnotin (ht ▸ heq ▸ List.mem_map_of_mem _ ht')
        simp [this]
      rw [List.map_cons, List.map_congr_left htail, List.map_id']
      simp [freeTaxi, ht]
    · obtain ⟨t0, ht0, htid0⟩ := hmem
      rcases List.mem_cons.mp ht0 with h1 | h1
      · exact absurd (h1 ▸ htid0) ht
      · rw [show freeTaxi (t :: ts) tid = (freeTaxi ts tid).map (fun ts1 => t :: ts1) by
          simp [freeTaxi, ht]]
        rw [ih hnd1 ⟨t0, h1, htid0⟩]
        simp [Option.map, ht]

lemma cleanupLoop_eq (rs : List Request) (ts : List Taxi) (arch : List Request)
    (hnd : (ts.map (fun t => t.id)).Nodup)
    (hpool : ∀ r ∈ rs, r.is_alive = false → ∀ tid, r.assigned_taxi = some tid →
      ∃ t ∈ ts, t.id = tid) :
    cleanupLoop rs ts arch = some
      (ts.map (fun t => if t.id ∈ deadTaxiIds rs then { t with is_occupied := false } else t),
        arch ++ rs.filter (fun r => !r.is_alive)) := by
  induction rs generalizing ts arch with
  | nil =>
    have : ∀ t ∈ ts, (if t.id ∈ deadTaxiIds [] then { t with is_occupied := false } else t) = t := by
      intro t _
      simp [deadTaxiIds]
    rw [List.map_congr_left this, List.map_id']
    simp [cleanupLoop]
  | cons r rs ih =>
    by_cases hal : r.is_alive
    · have hd : deadTaxiIds (r :: rs) = deadTaxiIds rs := by
        simp [deadTaxiIds, List.filter_cons, hal]
      have hf : (r :: rs).filter (fun r => !r.is_alive) = rs.filter (fun r => !r.is_alive) := by
        simp [List.filter_cons, hal]
      rw [show cleanupLoop (r :: rs) ts arch = cleanupLoop rs ts arch by simp [cleanupLoop, hal],
        hd, hf]
      exact ih ts arch hnd (fun r0 h0 => hpool r0 (List.mem_cons_of_mem _ h0))
    · have hal' : r.is_alive = false := by simpa using hal
      have hf : (r :: rs).filter (fun r => !r.is_alive)
          = r :: rs.filter (fun r => !r.is_alive) := by
        simp [List.filter_cons, hal']
      cases hrt : r.assigned_taxi with
      | none =>
        have hd : deadTaxiIds (r :: rs) = deadTaxiIds rs := by
          simp [deadTaxiIds, List.filter_cons, hal', List.filterMap_cons, hrt]
        rw [show cleanupLoop (r :: rs) ts arch = cleanupLoop rs ts (arch ++ [r]) by
            simp [cleanupLoop, hal', hrt],
          hd, hf]
        rw [ih ts (arch ++ [r]) hnd (fun r0 h0 => hpool r0 (List.mem_cons_of_mem _ h0))]
        simp
      | some tid =>
        have hd : deadTaxiIds (r :: rs) = tid :: deadTaxiIds rs := by
          simp [deadTaxiIds, List.filter_cons, hal', List.filterMap_cons, hrt]
        have hmem : ∃ t ∈ ts, t.id = tid := hpool r (List.mem_cons_self ..) hal' tid hrt
        have hfree := freeTaxi_eq_map hnd hmem
        rw [show cleanupLoop (r :: rs) ts arch
            = (freeTaxi ts tid).bind (fun ts1 => cleanupLoop rs ts1 (arch ++ [r])) by
          simp [cleanupLoop, hal', hrt]]
        rw [hfree, Option.some_bind]
        set ts1 := ts.map (fun t => if t.id = tid then { t with is_occupied := false } else t)
          with hts1
        have hids1 : ts1.map (fun t => t.id) = ts.map (fun t => t.id) := by
          rw [hts1, List.map_map]
          apply List.map_congr_left
          intro t _
          by_cases h : t.id = tid <;> simp [h]
        have hnd1 : (ts1.map (fun t => t.id)).Nodup := by rw [hids1]; exact hnd
        have hpool1 : ∀ r0 ∈ rs, r0.is_alive = false → ∀ tid0, r0.assigned_taxi = some tid0 →
            ∃ t ∈ ts1, t.id = tid0 := by
          intro r0 h0 h1 tid0 h2
          obtain ⟨t0, ht0, htid0⟩ := hpool r0 (List.mem_cons_of_mem _ h0) h1 tid0 h2
          refine ⟨if t0.id = tid then { t0 with is_occupied := false } else t0, ?_, ?_⟩
          · rw [hts1]
            exact List.mem_map_of_mem _ ht0
          · by_cases h : t0.id = tid
            · simp only [if_pos h]
              simpa using htid0
            · simp only [if_neg h]
              exact htid0
        rw [ih ts1 (arch ++ [r]) hnd1 hpool1, hd, hf]
        have htx : ts1.map (fun t => if t.id ∈ deadTaxiIds rs then { t with is_occupied := false }
              else t)
            = ts.map (fun t => if t.id ∈ tid :: deadTaxiIds rs then { t with is_occupied := false }
              else t) := by
          rw [hts1, List.map_map]
          apply List.map_congr_left
          intro t _
          by_cases h1 : t.id = tid
          · by_cases h2 : t.id ∈ deadTaxiIds rs <;> simp [h1, h2]
          · by_cases h2 : t.id ∈ deadTaxiIds rs <;> simp [h1, h2]
        rw [htx]
        simp

lemma cleanupLoop_eq_none (rs : List Request) (ts : List Taxi) (arch : List Request)
    (h : ∃ r ∈ rs, r.is_alive = false ∧ ∃ tid, r.assigned_taxi = some tid ∧
      tid ∉ ts.map (fun t => t.id)) :
    cleanupLoop rs ts arch = none := by
  induction rs generalizing ts arch with
  | nil => simp at h
  | cons r rs ih =>
    obtain ⟨r0, hr0, hal0, tid0, hrt0, hnot0⟩ := h
    rcases List.mem_cons.mp hr0 with h1 | h1
    · subst h1
      rw [show cleanupLoop (r0 :: rs) ts arch
          = (freeTaxi ts tid0).bind (fun ts1 => cleanupLoop rs ts1 (arch ++ [r0])) by
        simp [cleanupLoop, hal0, hrt0]]
      rw [freeTaxi_eq_none hnot0]
      rfl
    · by_cases hal : r.is_alive
      · rw [show cleanupLoop (r :: rs) ts arch = cleanupLoop rs ts arch by simp [cleanupLoop, hal]]
        exact ih ts arch ⟨r0, h1, hal0, tid0, hrt0, hnot0⟩
      · have hal' : r.is_alive = false := by simpa using hal
        cases hrt : r.assigned_taxi with
        | none =>
          rw [show cleanupLoop (r :: rs) ts arch = cleanupLoop rs ts (arch ++ [r]) by
            simp [cleanupLoop, hal', hrt]]
          exact ih ts (arch ++ [r]) ⟨r0, h1, hal0, tid0, hrt0, hnot0⟩
        | some tid =>
          rw [show cleanupLoop (r :: rs) ts arch
              = (freeTaxi ts tid).bind (fun ts1 => cleanupLoop rs ts1 (arch ++ [r])) by
            simp [cleanupLoop, hal', hrt]]
          cases hft : freeTaxi ts tid with
          | none => rfl
          | some ts1 =>
            rw [Option.some_bind]
            apply ih ts1 (arch ++ [r])
            refine ⟨r0, h1, hal0, tid0, hrt0, ?_⟩
            rw [freeTaxi_map_id hft]
            exact hnot0

/-!
## The tick-boundary invariant

`WorldInv` collects the consistency facts that hold after `World::new` and
after every full loop iteration: distinct taxi ids, distinct request ids
across active and archived, all active requests alive, all archived
requests dead, every stored assignment referring to a pooled taxi, the
occupancy bijection, freshness of the id counter, and the capacity bound.
-/

structure WorldInv (w : World) : Prop where
  taxi_nodup : (w.taxis.map (fun t => t.id)).Nodup
  req_nodup : ((w.active_requests ++ w.archived_requests).map (fun r => r.id)).Nodup
  active_alive : ∀ r ∈ w.active_requests, r.is_alive = true
  archived_dead : ∀ r ∈ w.archived_requests, r.is_alive = false
  assigned_in_pool : ∀ r ∈ w.active_requests, ∀ tid, r.assigned_taxi = some tid →
    ∃ t ∈ w.taxis, t.id = tid
  occupancy : ∀ t ∈ w.taxis,
    w.active_requests.countP (fun r => r.assigned_taxi == some t.id)
      = if t.is_occupied then 1 else 0
  id_bound : ∀ r ∈ w.active_requests ++ w.archived_requests, r.id < w.nextId
  cap : w.active_requests.length ≤ w.max_active_requests

lemma inv_init (runtime : Nat) (chance : ℚ) (maxActive : Nat) (nTaxis : Nat)
    (draws : Nat → Bool) : WorldInv (World.new runtime chance maxActive nTaxis draws) := by
  refine ⟨?_, ?_, ?_, ?_, ?_, ?_, ?_, ?_⟩
  · have hcomp : ((fun t => t.id) ∘ fun i => ({ id := i, is_occupied := false } : Taxi))
        = fun i => i := rfl
    simp [World.new, List.map_map, hcomp, List.nodup_range]
  · simp [World.new]
  · simp [World.new]
  · simp [World.new]
  · simp [World.new]
  · intro t ht
    simp only [World.new, List.mem_map, List.mem_range] at ht
    obtain ⟨i, _, rfl⟩ := ht
    simp [World.new]
  · simp [World.new]
  · simp [World.new]

lemma inv_age {w : World} (h : WorldInv w) (x : Nat) : WorldInv { w with age := x } :=
  ⟨h.taxi_nodup, h.req_nodup, h.active_alive, h.archived_dead, h.assigned_in_pool,
    h.occupancy, h.id_bound, h.cap⟩

lemma inv_spawn {w w1 : World} (h : WorldInv w) (hs : w.maybe_spawn_request = some w1) :
    WorldInv w1 := by
  unfold World.maybe_spawn_request at hs
  by_cases hlen : w.active_requests.length < w.max_active_requests
  · rw [if_pos hlen] at hs
    by_cases hp : 0 ≤ w.request_spawn_chance ∧ w.request_spawn_chance ≤ 1
    · rw [if_pos hp] at hs
      by_cases hb : w.draws w.rngIdx
      · rw [if_pos hb, Option.some_inj] at hs
        subst hs
        refine ⟨h.taxi_nodup, ?_, ?_, h.archived_dead, ?_, ?_, ?_, ?_⟩
        · have hmid : (w.active_requests ++ [Request.new w.nextId] ++ w.archived_requests)
              = w.active_requests ++ Request.new w.nextId :: w.archived_requests := by
            simp
          simp only [hmid, List.map_append, List.map_cons]
          rw [List.nodup_middle, List.nodup_cons]
          constructor
          · intro hmem
            have hlt : (Request.new w.nextId).id < w.nextId := by
              rw [← List.map_append] at hmem
              obtain ⟨r0, hr0, hid0⟩ := List.mem_map.mp hmem
              exact hid0 ▸ h.id_bound r0 hr0
            simp [Request.new] at hlt
          · rw [← List.map_append]
            exact h.req_nodup
        · intro r hr
          rcases List.mem_append.mp hr with h1 | h1
          · exact h.active_alive r h1
          · rw [List.mem_singleton.mp h1]
            rfl
        · intro r hr tid htid
          rcases List.mem_append.mp hr with h1 | h1
          · exact h.assigned_in_pool r h1 tid htid
          · rw [List.mem_singleton.mp h1] at htid
            simp [Request.new] at htid
        · intro t ht
          rw [List.countP_append]
          have : ([Request.new w.nextId].countP (fun r => r.assigned_taxi == some t.id)) = 0 := by
            simp [Request.new]
          rw [this, Nat.add_zero]
          exact h.occupancy t ht
        · intro r hr
          rcases List.mem_append.mp hr with h1 | h1
          · rcases List.mem_append.mp h1 with h2 | h2
            · exact Nat.lt_succ_of_lt (h.id_bound r (List.mem_append_left _ h2))
            · rw [List.mem_singleton.mp h2]
              simp [Request.new]
          · exact Nat.lt_succ_of_lt (h.id_bound r (List.mem_append_right _ h1))
        · simpa using hlen
      · rw [if_neg hb, Option.some_inj] at hs
        subst hs
        exact ⟨h.taxi_nodup, h.req_nodup, h.active_alive, h.archived_dead,
          h.assigned_in_pool, h.occupancy, h.id_bound, h.cap⟩
    · rw [if_neg hp] at hs
      exact absurd hs (by simp)
  · rw [if_neg hlen, Option.some_inj] at hs
    subst hs
    exact h

lemma is_alive_congr {r r' : Request}
    (h1 : r'.remaining_waiting_time = r.remaining_waiting_time)
    (h2 : r'.fulfillment_time = r.fulfillment_time) : r'.is_alive = r.is_alive := by
  simp [Request.is_alive, h1, h2]

lemma inv_distribute {w : World} (h : WorldInv w) :
    WorldInv w.distribute_unfulfilled_requests := by
  have hdist : w.distribute_unfulfilled_requests
      = { w with
          active_requests := handOut (freeTaxiIds w.taxis) w.active_requests
          taxis := occupyFirst (min (unassignedCount w.active_requests)
            (freeTaxiIds w.taxis).length) w.taxis } := by
    unfold World.distribute_unfulfilled_requests
    rw [assignLoop_eq]
  rw [hdist]
  have transfer : ∀ tid, (∃ t ∈ w.taxis, t.id = tid) →
      ∃ t ∈ occupyFirst (min (unassignedCount w.active_requests)
        (freeTaxiIds w.taxis).length) w.taxis, t.id = tid := by
    intro tid ht
    obtain ⟨t, htmem, htid⟩ := ht
    have hmem : tid ∈ (occupyFirst (min (unassignedCount w.active_requests)
        (freeTaxiIds w.taxis).length) w.taxis).map (fun t => t.id) := by
      rw [occupyFirst_map_id]
      exact htid ▸ List.mem_map_of_mem _ htmem
    obtain ⟨t', ht', htid'⟩ := List.mem_map.mp hmem
    exact ⟨t', ht', htid'⟩
  refine ⟨?_, ?_, ?_, ?_, ?_, ?_, ?_, ?_⟩
  · show ((occupyFirst _ w.taxis).map (fun t => t.id)).Nodup
    rw [occupyFirst_map_id]
    exact h.taxi_nodup
  · show ((handOut _ w.active_requests ++ w.archived_requests).map (fun r => r.id)).Nodup
    rw [List.map_append, handOut_map_id, ← List.map_append]
    exact h.req_nodup
  · intro r' hr'
    obtain ⟨r, hr, _, hrw, hft, _⟩ := handOut_mem hr'
    rw [is_alive_congr hrw hft]
    exact h.active_alive r hr
  · exact h.archived_dead
  · intro r' hr' tid htid
    obtain ⟨r, hr, _, _, _, hassign⟩ := handOut_mem hr'
    rcases hassign with hassign | ⟨_, tid1, htid1, hsome⟩
    · rw [htid] at hassign
      exact transfer tid (h.assigned_in_pool r hr tid hassign.symm)
    · rw [htid] at hsome
      have heq : tid = tid1 := Option.some_inj.mp hsome
      subst heq
      obtain ⟨t0, ht0, hocc0, htid0⟩ := mem_freeTaxiIds.mp htid1
      exact transfer tid ⟨t0, ht0, htid0⟩
  · intro t' ht'
    rw [occupyFirst_eq_map _ w.taxis h.taxi_nodup] at ht'
    obtain ⟨t, ht, rfl⟩ := List.mem_map.mp ht'
    show (handOut (freeTaxiIds w.taxis) w.active_requests).countP _ = _
    rw [handOut_count]
    by_cases hmem : t.id ∈ (freeTaxiIds w.taxis).take (min (unassignedCount w.active_requests)
      (freeTaxiIds w.taxis).length)
    · have hnodup : ((freeTaxiIds w.taxis).take (min (unassignedCount w.active_requests)
          (freeTaxiIds w.taxis).length)).Nodup :=
        (List.take_sublist _ _).nodup (freeTaxiIds_nodup h.taxi_nodup)
      have hunocc : t.is_occupied = false := by
        have hin : t.id ∈ freeTaxiIds w.taxis := List.take_subset _ _ hmem
        obtain ⟨t0, ht0, hocc0, htid0⟩ := mem_freeTaxiIds.mp hin
        have := List.inj_on_of_nodup_map h.taxi_nodup ht0 ht htid0
        rw [← this]
        exact hocc0
      have hcount : w.active_requests.countP (fun r => r.assigned_taxi == some t.id) = 0 := by
        have := h.occupancy t ht
        rw [hunocc] at this
        simpa using this
      have hone : ((freeTaxiIds w.taxis).take (min (unassignedCount w.active_requests)
          (freeTaxiIds w.taxis).length)).count t.id = 1 :=
        List.count_eq_one_of_mem hnodup hmem
      simp only [if_pos hmem]
      simp [hcount, hone]
    · simp only [if_neg hmem]
      have hzero : ((freeTaxiIds w.taxis).take (min (unassignedCount w.active_requests)
          (freeTaxiIds w.taxis).length)).count t.id = 0 :=
        List.count_eq_zero.mpr hmem
      rw [hzero, Nat.add_zero]
      exact h.occupancy t ht
  · intro r' hr'
    rcases List.mem_append.mp hr' with h1 | h1
    · obtain ⟨r, hr, hid, _, _, _⟩ := handOut_mem h1
      rw [hid]
      exact h.id_bound r (List.mem_append_left _ hr)
    · exact h.id_bound r' (List.mem_append_right _ h1)
  · show (handOut _ w.active_requests).length ≤ _
    rw [handOut_length]
    exact h.cap

/-- The mid-tick invariant: all of `WorldInv` except that active requests
need not be alive (this is the state after `update_requests`, before
`cleanup_requests` restores liveness of the active set). -/
structure MidInv (w : World) : Prop where
  taxi_nodup : (w.taxis.map (fun t => t.id)).Nodup
  req_nodup : ((w.active_requests ++ w.archived_requests).map (fun r => r.id)).Nodup
  archived_dead : ∀ r ∈ w.archived_requests, r.is_alive = false
  assigned_in_pool : ∀ r ∈ w.active_requests, ∀ tid, r.assigned_taxi = some tid →
    ∃ t ∈ w.taxis, t.id = tid
  occupancy : ∀ t ∈ w.taxis,
    w.active_requests.countP (fun r => r.assigned_taxi == some t.id)
      = if t.is_occupied then 1 else 0
  id_bound : ∀ r ∈ w.active_requests ++ w.archived_requests, r.id < w.nextId
  cap : w.active_requests.length ≤ w.max_active_requests

lemma mid_of_inv {w : World} (h : WorldInv w) : MidInv w :=
  ⟨h.taxi_nodup, h.req_nodup, h.archived_dead, h.assigned_in_pool, h.occupancy,
    h.id_bound, h.cap⟩

lemma tickDown_id (r : Request) : (Request.tickDown r).id = r.id := by
  unfold Request.tickDown
  split <;> rfl

lemma tickDown_assigned (r : Request) :
    (Request.tickDown r).assigned_taxi = r.assigned_taxi := by
  unfold Request.tickDown
  split <;> rfl

lemma exists_id_transfer {ts ts' : List Taxi}
    (hids : ts'.map (fun t => t.id) = ts.map (fun t => t.id)) {tid : Nat}
    (h : ∃ t ∈ ts, t.id = tid) : ∃ t ∈ ts', t.id = tid := by
  obtain ⟨t, ht, htid⟩ := h
  have hmem : tid ∈ ts'.map (fun t => t.id) := by
    rw [hids]
    exact htid ▸ List.mem_map_of_mem _ ht
  obtain ⟨t', ht', htid'⟩ := List.mem_map.mp hmem
  exact ⟨t', ht', htid'⟩

lemma mid_update {w : World} (h : MidInv w) : MidInv w.update_requests := by
  have hid : (w.active_requests.map Request.tickDown).map (fun r => r.id)
      = w.active_requests.map (fun r => r.id) := by
    rw [List.map_map]
    apply List.map_congr_left
    intro r _
    exact tickDown_id r
  refine ⟨h.taxi_nodup, ?_, h.archived_dead, ?_, ?_, ?_, ?_⟩
  · show (((w.active_requests.map Request.tickDown) ++ w.archived_requests).map
      (fun r => r.id)).Nodup
    rw [List.map_append, hid, ← List.map_append]
    exact h.req_nodup
  · intro r' hr' tid htid
    obtain ⟨r, hr, rfl⟩ := List.mem_map.mp hr'
    rw [tickDown_assigned] at htid
    exact h.assigned_in_pool r hr tid htid
  · intro t ht
    show (w.active_requests.map Request.tickDown).countP _ = _
    rw [List.countP_map]
    have hfun : ((fun r => r.assigned_taxi == some t.id) ∘ Request.tickDown)
        = (fun r => r.assigned_taxi == some t.id) := by
      funext r
      simp [Function.comp, tickDown_assigned]
    rw [hfun]
    exact h.occupancy t ht
  · intro r' hr'
    rcases List.mem_append.mp hr' with h1 | h1
    · obtain ⟨r, hr, rfl⟩ := List.mem_map.mp h1
      rw [tickDown_id]
      exact h.id_bound r (List.mem_append_left _ hr)
    · exact h.id_bound r' (List.mem_append_right _ h1)
  · show (w.active_requests.map Request.tickDown).length ≤ _
    rw [List.length_map]
    exact h.cap

lemma mem_deadTaxiIds {rs : List Request} {tid : Nat} :
    tid ∈ deadTaxiIds rs ↔ ∃ r ∈ rs, r.is_alive = false ∧ r.assigned_taxi = some tid := by
  constructor
  · intro h
    obtain ⟨r, hr, hrt⟩ := List.mem_filterMap.mp h
    obtain ⟨hmem, hdead⟩ := List.mem_filter.mp hr
    exact ⟨r, hmem, by simpa using hdead, hrt⟩
  · intro ⟨r, hr, hdead, hrt⟩
    exact List.mem_filterMap.mpr ⟨r, List.mem_filter.mpr ⟨hr, by simp [hdead]⟩, hrt⟩

lemma cleanup_eq_of_mid {w : World} (h : MidInv w) :
    w.cleanup_requests = some
      { w with
        taxis := w.taxis.map (fun t => if t.id ∈ deadTaxiIds w.active_requests
          then { t with is_occupied := false } else t)
        archived_requests := w.archived_requests
          ++ w.active_requests.filter (fun r => !r.is_alive)
        active_requests := w.active_requests.filter Request.is_alive } := by
  unfold World.cleanup_requests
  rw [cleanupLoop_eq _ _ _ h.taxi_nodup
    (fun r hr _ tid htid => h.assigned_in_pool r hr tid htid)]
  rfl

lemma inv_cleanup {w w' : World} (h : MidInv w) (hc : w.cleanup_requests = some w') :
    WorldInv w' := by
  rw [cleanup_eq_of_mid h, Option.some_inj] at hc
  subst hc
  have p1 : List.Perm (w.active_requests.filter Request.is_alive
      ++ w.active_requests.filter (fun r => !r.is_alive)) w.active_requests :=
    List.filter_append_perm _ _
  have hgid : (w.taxis.map (fun t => if t.id ∈ deadTaxiIds w.active_requests
        then { t with is_occupied := false } else t)).map (fun t => t.id)
      = w.taxis.map (fun t => t.id) := by
    rw [List.map_map]
    apply List.map_congr_left
    intro t _
    by_cases hx : t.id ∈ deadTaxiIds w.active_requests <;> simp [hx]
  have p2 : List.Perm
      (w.active_requests.filter Request.is_alive
        ++ (w.archived_requests ++ w.active_requests.filter (fun r => !r.is_alive)))
      (w.active_requests ++ w.archived_requests) := by
    have p2a : List.Perm
        (w.archived_requests ++ w.active_requests.filter (fun r => !r.is_alive))
        (w.active_requests.filter (fun r => !r.is_alive) ++ w.archived_requests) :=
      List.perm_append_comm
    have p2b := p2a.append_left (w.active_requests.filter Request.is_alive)
    have p2c : w.active_requests.filter Request.is_alive
        ++ (w.active_requests.filter (fun r => !r.is_alive) ++ w.archived_requests)
        = (w.active_requests.filter Request.is_alive
          ++ w.active_requests.filter (fun r => !r.is_alive)) ++ w.archived_requests :=
      (List.append_assoc _ _ _).symm
    exact (p2c ▸ p2b).trans (p1.append_right w.archived_requests)
  refine ⟨?_, ?_, ?_, ?_, ?_, ?_, ?_, ?_⟩
  · have hres : ((w.taxis.map (fun t => if t.id ∈ deadTaxiIds w.active_requests
        then { t with is_occupied := false } else t)).map (fun t => t.id)).Nodup := by
      rw [hgid]
      exact h.taxi_nodup
    exact hres
  · exact (p2.map (fun r => r.id)).nodup_iff.mpr h.req_nodup
  · intro r hr
    exact (List.mem_filter.mp hr).2
  · intro r hr
    rcases List.mem_append.mp hr with h1 | h1
    · exact h.archived_dead r h1
    · have := (List.mem_filter.mp h1).2
      simpa using this
  · intro r hr tid htid
    exact exists_id_transfer hgid
      (h.assigned_in_pool r (List.mem_filter.mp hr).1 tid htid)
  · intro t' ht'
    obtain ⟨t, ht, rfl⟩ := List.mem_map.mp ht'
    have hsplit : (w.active_requests.filter Request.is_alive).countP
          (fun r => r.assigned_taxi == some t.id)
        + (w.active_requests.filter (fun r => !r.is_alive)).countP
          (fun r => r.assigned_taxi == some t.id)
        = w.active_requests.countP (fun r => r.assigned_taxi == some t.id) := by
      rw [← List.countP_append]
      exact p1.countP_eq _
    have hca := h.occupancy t ht
    have hdmem : t.id ∈ deadTaxiIds w.active_requests ↔
        0 < (w.active_requests.filter (fun r => !r.is_alive)).countP
          (fun r => r.assigned_taxi == some t.id) := by
      rw [List.countP_pos_iff]
      constructor
      · intro hm
        obtain ⟨r, hr, hdead, hrt⟩ := mem_deadTaxiIds.mp hm
        exact ⟨r, List.mem_filter.mpr ⟨hr, by simp [hdead]⟩, by simp [hrt]⟩
      · intro hex
        obtain ⟨r, hr, hp⟩ := hex
        obtain ⟨hrA, hdead⟩ := List.mem_filter.mp hr
        exact mem_deadTaxiIds.mpr ⟨r, hrA, by simpa using hdead, by simpa using hp⟩
    by_cases hx : t.id ∈ deadTaxiIds w.active_requests
    · have hpos := hdmem.mp hx
      simp only [if_pos hx]
      have hid1 : ({ t with is_occupied := false } : Taxi).id = t.id := rfl
      rw [hid1]
      rw [if_neg Bool.false_ne_true]
      by_cases hto : t.is_occupied = true
      · rw [if_pos hto] at hca
        omega
      · rw [if_neg hto] at hca
        omega
    · have hzero : (w.active_requests.filter (fun r => !r.is_alive)).countP
          (fun r => r.assigned_taxi == some t.id) = 0 := by
        by_contra hne
        exact hx (hdmem.mpr (Nat.pos_of_ne_zero hne))
      simp only [if_neg hx]
      by_cases hto : t.is_occupied = true
      · rw [if_pos hto] at hca
        rw [if_pos hto]
        omega
      · rw [if_neg hto] at hca
        rw [if_neg hto]
        omega
  · intro r hr
    rcases List.mem_append.mp hr with h1 | h1
    · exact h.id_bound r (List.mem_append_left _ (List.mem_filter.mp h1).1)
    · rcases List.mem_append.mp h1 with h2 | h2
      · exact h.id_bound r (List.mem_append_right _ h2)
      · exact h.id_bound r (List.mem_append_left _ (List.mem_filter.mp h2).1)
  · show (w.active_requests.filter Request.is_alive).length ≤ _
    exact le_trans (List.length_filter_le _ _) h.cap

lemma inv_tick_steps {w w' : World} (h : WorldInv w) (ht : w.tickSteps = some w') :
    WorldInv w' := by
  unfold World.tickSteps at ht
  cases hs : w.maybe_spawn_request with
  | none => rw [hs] at ht; exact absurd ht (by simp)
  | some w1 =>
    rw [hs] at ht
    exact inv_cleanup (mid_update (mid_of_inv (inv_distribute (inv_spawn h hs)))) ht

lemma inv_tick {w w' : World} (h : WorldInv w) (ht : w.tick = some w') : WorldInv w' := by
  unfold World.tick at ht
  exact inv_tick_steps (inv_age h (w.age + 1)) ht

lemma reachable_inv {w : World} (h : Reachable w) : WorldInv w := by
  induction h with
  | init rt c ma nt d => exact inv_init rt c ma nt d
  | step hr ht ih => exact inv_tick ih ht

lemma spawn_preserves {w w1 : World} (hs : w.maybe_spawn_request = some w1) :
    w1.age = w.age ∧ w1.runtime = w.runtime := by
  unfold World.maybe_spawn_request at hs
  split at hs
  · split at hs
    · split at hs <;> (rw [Option.some_inj] at hs; subst hs; exact ⟨rfl, rfl⟩)
    · simp at hs
  · rw [Option.some_inj] at hs
    subst hs
    exact ⟨rfl, rfl⟩

lemma spawn_active {w w1 : World} (hs : w.maybe_spawn_request = some w1) :
    w1.active_requests = w.active_requests ∨
      w1.active_requests = w.active_requests ++ [Request.new w.nextId] := by
  unfold World.maybe_spawn_request at hs
  split at hs
  · split at hs
    · split at hs
      · rw [Option.some_inj] at hs
        subst hs
        exact Or.inr rfl
      · rw [Option.some_inj] at hs
        subst hs
        exact Or.inl rfl
    · simp at hs
  · rw [Option.some_inj] at hs
    subst hs
    exact Or.inl rfl

lemma cleanup_preserves {w w1 : World} (hc : w.cleanup_requests = some w1) :
    w1.age = w.age ∧ w1.runtime = w.runtime := by
  unfold World.cleanup_requests at hc
  cases hcl : cleanupLoop w.active_requests w.taxis w.archived_requests with
  | none => rw [hcl] at hc; simp at hc
  | some p =>
    rw [hcl] at hc
    simp only [Option.map, Option.some_inj] at hc
    subst hc
    exact ⟨rfl, rfl⟩

lemma tick_age {w w' : World} (ht : w.tick = some w') :
    w'.age = w.age + 1 ∧ w'.runtime = w.runtime := by
  unfold World.tick World.tickSteps at ht
  cases hs : World.maybe_spawn_request { w with age := w.age + 1 } with
  | none => rw [hs] at ht; simp at ht
  | some w1 =>
    rw [hs] at ht
    obtain ⟨ha1, hr1⟩ := spawn_preserves hs
    obtain ⟨ha2, hr2⟩ := cleanup_preserves ht
    have hmid : (World.update_requests (World.distribute_unfulfilled_requests w1)).age = w1.age
        ∧ (World.update_requests (World.distribute_unfulfilled_requests w1)).runtime
          = w1.runtime := ⟨rfl, rfl⟩
    constructor
    · rw [ha2, hmid.1, ha1]
    · rw [hr2, hmid.2, hr1]

lemma runAux_fuel_exact {n : Nat} : ∀ {w : World}, w.runtime + 1 - w.age ≤ n →
    runAux n w = runAux (w.runtime + 1 - w.age) w := by
  induction n with
  | zero =>
    intro w hn
    have h0 : w.runtime + 1 - w.age = 0 := Nat.le_zero.mp hn
    rw [h0]
  | succ k ih =>
    intro w hn
    by_cases hage : w.age ≤ w.runtime
    · have hpos : 0 < w.runtime + 1 - w.age := by omega
      obtain ⟨m, hm⟩ : ∃ m, w.runtime + 1 - w.age = m + 1 :=
        ⟨w.runtime - w.age, by omega⟩
      rw [hm]
      simp only [runAux, if_pos hage]
      cases htk : w.tick with
      | none => rfl
      | some w1 =>
        simp only [Option.bind]
        obtain ⟨ha, hr⟩ := tick_age htk
        have hexp : w1.runtime + 1 - w1.age = m := by omega
        have hle : w1.runtime + 1 - w1.age ≤ k := by omega
        rw [ih hle, hexp]
    · have h0 : w.runtime + 1 - w.age = 0 := by omega
      rw [h0]
      simp only [runAux, if_neg hage]

lemma is_alive_iff {r : Request} :
    r.is_alive = true ↔ 0 < r.remaining_waiting_time ∧ 0 < r.fulfillment_time := by
  simp [Request.is_alive]

lemma one_lt_length_of_two_mem {α : Type} {l : List α} {a b : α}
    (ha : a ∈ l) (hb : b ∈ l) (hne : a ≠ b) : 1 < l.length := by
  cases l with
  | nil => simp at ha
  | cons x xs =>
    simp only [List.length_cons]
    rcases List.mem_cons.mp ha with rfl | ha1
    · rcases List.mem_cons.mp hb with rfl | hb1
      · exact absurd rfl hne
      · have : 0 < xs.length := List.length_pos.mpr (List.ne_nil_of_mem hb1)
        omega
    · have : 0 < xs.length := List.length_pos.mpr (List.ne_nil_of_mem ha1)
      omega

lemma cleanupLoop_archived : ∀ {rs : List Request} {ts : List Taxi} {arch : List Request}
    {p : List Taxi × List Request}, cleanupLoop rs ts arch = some p →
    p.2 = arch ++ rs.filter (fun r => !r.is_alive) := by
  intro rs
  induction rs with
  | nil =>
    intro ts arch p h
    simp only [cleanupLoop, Option.some_inj] at h
    subst h
    simp
  | cons r rs ih =>
    intro ts arch p h
    by_cases hal : r.is_alive
    · rw [show cleanupLoop (r :: rs) ts arch = cleanupLoop rs ts arch by
        simp [cleanupLoop, hal]] at h
      rw [ih h]
      simp [List.filter_cons, hal]
    · have hal' : r.is_alive = false := by simpa using hal
      cases hrt : r.assigned_taxi with
      | none =>
        rw [show cleanupLoop (r :: rs) ts arch = cleanupLoop rs ts (arch ++ [r]) by
          simp [cleanupLoop, hal', hrt]] at h
        rw [ih h]
        simp [List.filter_cons, hal']
      | some tid =>
        rw [show cleanupLoop (r :: rs) ts arch
            = (freeTaxi ts tid).bind (fun ts1 => cleanupLoop rs ts1 (arch ++ [r])) by
          simp [cleanupLoop, hal', hrt]] at h
        cases hft : freeTaxi ts tid with
        | none => rw [hft] at h; simp at h
        | some ts1 =>
          rw [hft, Option.some_bind] at h
          rw [ih h]
          simp [List.filter_cons, hal']

/-!
## The claims
-/

/-- C3.  Greedy matching with capacity short-circuit: on every call,
`distribute_unfulfilled_requests` is exactly the declarative Matcher: the
unassigned active requests, in arrival order, each receive the next id
from `freeTaxiIds` (the unoccupied taxis in server-pool order, so each
binds to the first unoccupied taxi at that moment), already-assigned
requests are never modified, and as soon as the free ids run out the
remaining requests are returned untouched (`handOut`'s short-circuit);
on the pool side exactly the first
`min (number of unassigned requests) (number of free taxis)` unoccupied
taxis become occupied (`occupyFirst`). -/
theorem matcher_greedy_spec (w : World) :
    w.distribute_unfulfilled_requests =
      { w with
        active_requests := handOut (freeTaxiIds w.taxis) w.active_requests
        taxis := occupyFirst (min (unassignedCount w.active_requests)
          (freeTaxiIds w.taxis).length) w.taxis } := by
  unfold World.distribute_unfulfilled_requests
  rw [assignLoop_eq]

/-- C8, counterexample.  `World::new` does not clamp the spawn
probability into `[0, 1]` (it stores the argument unchanged, here `2`),
and with that probability the spawn step's draw does not succeed: it
panics (`none`), because `rng.gen_bool(p)` requires `p ∈ [0, 1]`. -/
theorem construction_no_clamping_cex :
    (World.new 5 2 1 0 (fun _ => true)).request_spawn_chance = 2
    ∧ ¬ ((World.new 5 2 1 0 (fun _ => true)).request_spawn_chance ≤ 1)
    ∧ (World.new 5 2 1 0 (fun _ => true)).maybe_spawn_request = none := by
  refine ⟨rfl, ?_, rfl⟩
  show ¬ ((2 : ℚ) ≤ 1)
  norm_num

/-- C8, amended.  The constructor performs no validation or clamping:
every configuration value is stored exactly as given.  The spawn step's
probability draw succeeds whenever the stored probability lies in
`[0, 1]`, and panics (returns `none`) whenever the capacity test passes
but the stored probability lies outside `[0, 1]`. -/
theorem construction_stores_unvalidated (runtime : Nat) (p : ℚ) (maxA nT : Nat)
    (draws : Nat → Bool) :
    (World.new runtime p maxA nT draws).request_spawn_chance = p
    ∧ (World.new runtime p maxA nT draws).runtime = runtime
    ∧ (World.new runtime p maxA nT draws).max_active_requests = maxA
    ∧ (∀ w : World, 0 ≤ w.request_spawn_chance → w.request_spawn_chance ≤ 1 →
        (w.maybe_spawn_request).isSome = true)
    ∧ (∀ w : World, w.active_requests.length < w.max_active_requests →
        ¬ (0 ≤ w.request_spawn_chance ∧ w.request_spawn_chance ≤ 1) →
        w.maybe_spawn_request = none) := by
  refine ⟨rfl, rfl, rfl, ?_, ?_⟩
  · intro w h0 h1
    unfold World.maybe_spawn_request
    split
    · rw [if_pos ⟨h0, h1⟩]
      split <;> rfl
    · rfl
  · intro w hlen hp
    unfold World.maybe_spawn_request
    rw [if_pos hlen, if_neg hp]

theorem construction_stores_unvalidated_witness :
    (World.new 3 (1 / 2) 2 1 (fun _ => false)).request_spawn_chance = 1 / 2
    ∧ ((World.new 3 (1 / 2) 2 1 (fun _ => false)).maybe_spawn_request).isSome = true :=
  ⟨(construction_stores_unvalidated 3 (1 / 2) 2 1 (fun _ => false)).1,
    (construction_stores_unvalidated 3 (1 / 2) 2 1 (fun _ => false)).2.2.2.1
      (World.new 3 (1 / 2) 2 1 (fun _ => false)) (by norm_num [World.new])
      (by norm_num [World.new])⟩

/-- C9, counterexample.  A world with horizon (`runtime`) 0 does not
degenerate to a no-op: the loop condition `age <= runtime` holds at
`age = 0`, so one full tick runs.  Here (spawn chance 1, capacity 1,
no taxis, an oracle that draws true) that tick admits a request, and
`run_till_done` terminates with one active request — not with no active
and no archived requests. -/
theorem zero_horizon_cex :
    ((World.new 0 1 1 0 (fun _ => true)).run_till_done).map
      (fun w => (w.active_requests.length, w.archived_requests.length)) = some (1, 0)
    ∧ ¬ (((World.new 0 1 1 0 (fun _ => true)).run_till_done).map
      (fun w => w.active_requests.length) = some 0) := by
  constructor
  · rfl
  · intro h
    have h1 : ((World.new 0 1 1 0 (fun _ => true)).run_till_done).map
        (fun w => w.active_requests.length) = some 1 := rfl
    rw [h1] at h
    simp at h

/-- C9, amended.  A horizon-0 world is legal, and `run_till_done` on it
executes exactly one full loop iteration (because the loop runs while
`age <= runtime`, and `0 <= 0`): it equals a single `tick`, which may
spawn, match, and retain an active request; it is not a no-op and need
not end with empty request sets. -/
theorem zero_horizon_one_tick (p : ℚ) (maxA nT : Nat) (draws : Nat → Bool) :
    (World.new 0 p maxA nT draws).run_till_done
      = (World.new 0 p maxA nT draws).tick := by
  show runAux 1 (World.new 0 p maxA nT draws) = _
  rw [show runAux 1 (World.new 0 p maxA nT draws)
      = ((World.new 0 p maxA nT draws).tick).bind (runAux 0) by
    simp [runAux, World.new]]
  cases h : (World.new 0 p maxA nT draws).tick with
  | none => rfl
  | some w1 => rfl

/-- C10.  When `max_active_requests = 0`, the capacity comparison
`len < max` is false, and because Rust's `&&` short-circuits, the rng is
never sampled and `gen_bool` can never panic: `maybe_spawn_request`
returns the world completely unchanged (in particular `rngIdx` is not
advanced and no failure occurs even for an out-of-range
`request_spawn_chance`). -/
theorem capacity_zero_short_circuit (w : World) (h : w.max_active_requests = 0) :
    w.maybe_spawn_request = some w := by
  unfold World.maybe_spawn_request
  rw [if_neg]
  rw [h]
  exact Nat.not_lt_zero _

theorem capacity_zero_short_circuit_witness :
    (World.new 7 2 0 1 (fun _ => true)).max_active_requests = 0
    ∧ (World.new 7 2 0 1 (fun _ => true)).maybe_spawn_request
      = some (World.new 7 2 0 1 (fun _ => true)) :=
  ⟨rfl, capacity_zero_short_circuit (World.new 7 2 0 1 (fun _ => true)) rfl⟩

/-- C1.  Occupancy bijection at every reachable tick boundary: a taxi's
`is_occupied` flag is true iff exactly one request in `active_requests`
has `assigned_taxi` equal to that taxi's id; consequently no two
distinct active requests share the same assigned taxi. -/
theorem occupancy_bijection {w : World} (h : Reachable w) :
    (∀ t ∈ w.taxis, (t.is_occupied = true ↔
      w.active_requests.countP (fun r => r.assigned_taxi == some t.id) = 1))
    ∧ ∀ r1 ∈ w.active_requests, ∀ r2 ∈ w.active_requests, ∀ tid : Nat,
        r1.assigned_taxi = some tid → r2.assigned_taxi = some tid → r1 = r2 := by
  have hw := reachable_inv h
  constructor
  · intro t ht
    have hocc := hw.occupancy t ht
    by_cases hto : t.is_occupied = true
    · rw [if_pos hto] at hocc
      exact ⟨fun _ => hocc, fun _ => hto⟩
    · rw [if_neg hto] at hocc
      constructor
      · intro h1
        exact absurd h1 hto
      · intro h1
        rw [hocc] at h1
        exact absurd h1 (by omega)
  · intro r1 h1 r2 h2 tid e1 e2
    by_contra hne
    obtain ⟨t, ht, htid⟩ := hw.assigned_in_pool r1 h1 tid e1
    subst htid
    have hmem1 : r1 ∈ w.active_requests.filter (fun r => r.assigned_taxi == some t.id) :=
      List.mem_filter.mpr ⟨h1, by simp [e1]⟩
    have hmem2 : r2 ∈ w.active_requests.filter (fun r => r.assigned_taxi == some t.id) :=
      List.mem_filter.mpr ⟨h2, by simp [e2]⟩
    have hlen := one_lt_length_of_two_mem hmem1 hmem2 hne
    have hcount : w.active_requests.countP (fun r => r.assigned_taxi == some t.id)
        = (w.active_requests.filter (fun r => r.assigned_taxi == some t.id)).length :=
      List.countP_eq_length_filter _ _
    have hocc := hw.occupancy t ht
    by_cases hto : t.is_occupied = true
    · rw [if_pos hto] at hocc
      omega
    · rw [if_neg hto] at hocc
      omega

theorem occupancy_bijection_witness :
    (∀ t ∈ (World.new 0 1 2 1 (fun _ => true)).taxis, (t.is_occupied = true ↔
      (World.new 0 1 2 1 (fun _ => true)).active_requests.countP
        (fun r => r.assigned_taxi == some t.id) = 1))
    ∧ ∀ r1 ∈ (World.new 0 1 2 1 (fun _ => true)).active_requests,
        ∀ r2 ∈ (World.new 0 1 2 1 (fun _ => true)).active_requests, ∀ tid : Nat,
        r1.assigned_taxi = some tid → r2.assigned_taxi = some tid → r1 = r2 :=
  occupancy_bijection (Reachable.init 0 1 2 1 (fun _ => true))

/-- C2.  No budget underflow: from any reachable tick boundary, at the
moment `update_requests` runs inside the next tick (after the spawn and
matching steps), every request in `active_requests` has
`remaining_waiting_time > 0` and `fulfillment_time > 0`, so the single
`u64` decrement performed per request never subtracts from zero.  No
clamping at zero is needed because `cleanup_requests` (see
`archive_liveness`) removes every request whose budget reaches zero in
the same tick, so the tick-boundary invariant that all active requests
are alive is restored before the next decrement. -/
theorem no_budget_underflow {w w1 : World} (h : Reachable w)
    (hs : World.maybe_spawn_request { w with age := w.age + 1 } = some w1) :
    ∀ r ∈ (w1.distribute_unfulfilled_requests).active_requests,
      0 < r.remaining_waiting_time ∧ 0 < r.fulfillment_time := by
  have hw := reachable_inv h
  intro r' hr'
  have hr2 : r' ∈ (assignLoop w1.active_requests w1.taxis).1 := hr'
  rw [assignLoop_eq] at hr2
  obtain ⟨r, hr, _, hrw, hft, _⟩ := handOut_mem hr2
  have halive : r.is_alive = true := by
    rcases spawn_active hs with he | he
    · rw [he] at hr
      exact hw.active_alive r hr
    · rw [he] at hr
      rcases List.mem_append.mp hr with h1 | h1
      · exact hw.active_alive r h1
      · rw [List.mem_singleton.mp h1]
        rfl
  rw [is_alive_iff] at halive
  rw [hrw, hft]
  exact halive

theorem no_budget_underflow_witness :
    0 < (((World.distribute_unfulfilled_requests
        { World.new 0 1 1 1 (fun _ => true) with
          age := 1, rngIdx := 1, active_requests := [Request.new 1],
          nextId := 2 }).active_requests).getD 0 (Request.new 0)).remaining_waiting_time
    ∧ 0 < (((World.distribute_unfulfilled_requests
        { World.new 0 1 1 1 (fun _ => true) with
          age := 1, rngIdx := 1, active_requests := [Request.new 1],
          nextId := 2 }).active_requests).getD 0 (Request.new 0)).fulfillment_time :=
  no_budget_underflow (Reachable.init 0 1 1 1 (fun _ => true)) rfl
    (((World.distribute_unfulfilled_requests
        { World.new 0 1 1 1 (fun _ => true) with
          age := 1, rngIdx := 1, active_requests := [Request.new 1],
          nextId := 2 }).active_requests).getD 0 (Request.new 0)) (by decide)

/-- C4.  Arrival generation contract at any reachable state: the active
count never exceeds the configured maximum at the moment the generator
is invoked; when `len ≥ max` the call appends nothing and leaves the
world untouched (`some w`); and on any successful call either nothing is
appended or exactly one request is appended at the end of
`active_requests`, namely `Request::new` with the fresh identity
`nextId` (distinct from every request id currently in the world, active
or archived), waiting budget 100, service budget 100, and no assigned
taxi. -/
theorem arrival_generation_contract {w : World} (h : Reachable w) :
    w.active_requests.length ≤ w.max_active_requests
    ∧ (w.max_active_requests ≤ w.active_requests.length → w.maybe_spawn_request = some w)
    ∧ ∀ w1, w.maybe_spawn_request = some w1 →
        w1.active_requests = w.active_requests
        ∨ (w1.active_requests = w.active_requests ++ [Request.new w.nextId]
          ∧ (Request.new w.nextId).remaining_waiting_time = 100
          ∧ (Request.new w.nextId).fulfillment_time = 100
          ∧ (Request.new w.nextId).assigned_taxi = none
          ∧ ∀ r ∈ w.active_requests ++ w.archived_requests,
              r.id ≠ (Request.new w.nextId).id) := by
  have hw := reachable_inv h
  refine ⟨hw.cap, ?_, ?_⟩
  · intro hge
    unfold World.maybe_spawn_request
    rw [if_neg (by omega)]
  · intro w1 hs
    rcases spawn_active hs with he | he
    · exact Or.inl he
    · refine Or.inr ⟨he, rfl, rfl, rfl, ?_⟩
      intro r hr hid
      have hb := hw.id_bound r hr
      rw [hid] at hb
      simp [Request.new] at hb

theorem arrival_generation_contract_witness :
    (World.new 4 1 1 0 (fun _ => true)).active_requests.length
      ≤ (World.new 4 1 1 0 (fun _ => true)).max_active_requests
    ∧ ((World.new 4 1 1 0 (fun _ => true)).max_active_requests
        ≤ (World.new 4 1 1 0 (fun _ => true)).active_requests.length →
        (World.new 4 1 1 0 (fun _ => true)).maybe_spawn_request
          = some (World.new 4 1 1 0 (fun _ => true)))
    ∧ ∀ w1, (World.new 4 1 1 0 (fun _ => true)).maybe_spawn_request = some w1 →
        w1.active_requests = (World.new 4 1 1 0 (fun _ => true)).active_requests
        ∨ (w1.active_requests = (World.new 4 1 1 0 (fun _ => true)).active_requests
            ++ [Request.new (World.new 4 1 1 0 (fun _ => true)).nextId]
          ∧ (Request.new (World.new 4 1 1 0 (fun _ => true)).nextId).remaining_waiting_time = 100
          ∧ (Request.new (World.new 4 1 1 0 (fun _ => true)).nextId).fulfillment_time = 100
          ∧ (Request.new (World.new 4 1 1 0 (fun _ => true)).nextId).assigned_taxi = none
          ∧ ∀ r ∈ (World.new 4 1 1 0 (fun _ => true)).active_requests
              ++ (World.new 4 1 1 0 (fun _ => true)).archived_requests,
              r.id ≠ (Request.new (World.new 4 1 1 0 (fun _ => true)).nextId).id) :=
  arrival_generation_contract (Reachable.init 4 1 1 0 (fun _ => true))

/-- C5.  Archive liveness: (a) in every reachable state, every archived
request satisfies `remaining_waiting_time = 0 ∨ fulfillment_time = 0`;
and (b) whenever the Archiver runs, the archive is exactly the old
archive extended (append-only, existing entries never mutated) with
precisely those active requests whose budget has reached zero, while the
new active set keeps exactly the alive ones — so a request is present in
the archive iff one of its budgets reached zero while it was active. -/
theorem archive_liveness {w : World} (h : Reachable w) :
    (∀ r ∈ w.archived_requests,
      r.remaining_waiting_time = 0 ∨ r.fulfillment_time = 0)
    ∧ (∀ v w' : World, v.cleanup_requests = some w' →
        w'.archived_requests
          = v.archived_requests ++ v.active_requests.filter (fun r => !r.is_alive)
        ∧ w'.active_requests = v.active_requests.filter Request.is_alive) := by
  have hw := reachable_inv h
  constructor
  · intro r hr
    have hdead := hw.archived_dead r hr
    simp [Request.is_alive] at hdead
    omega
  · intro v w' hc
    unfold World.cleanup_requests at hc
    cases hcl : cleanupLoop v.active_requests v.taxis v.archived_requests with
    | none => rw [hcl] at hc; simp at hc
    | some p =>
      rw [hcl] at hc
      simp only [Option.map, Option.some_inj] at hc
      subst hc
      exact ⟨cleanupLoop_archived hcl, rfl⟩

theorem archive_liveness_witness :
    (∀ r ∈ (World.new 6 1 3 2 (fun _ => true)).archived_requests,
      r.remaining_waiting_time = 0 ∨ r.fulfillment_time = 0)
    ∧ (∀ v w' : World, v.cleanup_requests = some w' →
        w'.archived_requests
          = v.archived_requests ++ v.active_requests.filter (fun r => !r.is_alive)
        ∧ w'.active_requests = v.active_requests.filter Request.is_alive) :=
  archive_liveness (Reachable.init 6 1 3 2 (fun _ => true))

/-- C6.  Archive-once: in every reachable state, each request identity
appears in `archived_requests` at most once, and no archived identity is
present in `active_requests` (a request that has been archived never
reappears in the active set). -/
theorem archive_once {w : World} (h : Reachable w) :
    (w.archived_requests.map (fun r => r.id)).Nodup
    ∧ ∀ r ∈ w.archived_requests, ∀ r' ∈ w.active_requests, r'.id ≠ r.id := by
  have hw := reachable_inv h
  have hnodup := hw.req_nodup
  rw [List.map_append] at hnodup
  constructor
  · exact hnodup.of_append_right
  · intro r hr r' hr' heq
    have hdisj := List.disjoint_of_nodup_append hnodup
    exact hdisj (List.mem_map_of_mem _ hr') (heq ▸ List.mem_map_of_mem _ hr)

theorem archive_once_witness :
    ((World.new 9 1 2 2 (fun _ => false)).archived_requests.map (fun r => r.id)).Nodup
    ∧ ∀ r ∈ (World.new 9 1 2 2 (fun _ => false)).archived_requests,
        ∀ r' ∈ (World.new 9 1 2 2 (fun _ => false)).active_requests, r'.id ≠ r.id :=
  archive_once (Reachable.init 9 1 2 2 (fun _ => false))

/-- C7.  Fatal invariant fault: (a) whenever `cleanup_requests` meets a
dead active request whose `assigned_taxi` id matches no taxi in the
pool, it aborts with a panic (modelled as `none`) rather than
continuing; (b) from any reachable tick boundary, in the state in which
`cleanup_requests` actually runs (after the spawn, matching and update
steps of the tick), every assigned id stored in an active request is the
id of some pooled taxi; and therefore (c) the cleanup succeeds — the
panic branch is unreachable through the engine's own operations. -/
theorem cleanup_panic_unreachable {w w1 : World} (h : Reachable w)
    (hs : World.maybe_spawn_request { w with age := w.age + 1 } = some w1) :
    (∀ v : World, (∃ r ∈ v.active_requests, r.is_alive = false ∧ ∃ tid,
        r.assigned_taxi = some tid ∧ tid ∉ v.taxis.map (fun t => t.id)) →
      v.cleanup_requests = none)
    ∧ (∀ r ∈ (w1.distribute_unfulfilled_requests.update_requests).active_requests,
        ∀ tid, r.assigned_taxi = some tid →
          ∃ t ∈ (w1.distribute_unfulfilled_requests.update_requests).taxis, t.id = tid)
    ∧ ∃ w2, (w1.distribute_unfulfilled_requests.update_requests).cleanup_requests
        = some w2 := by
  have hmid : MidInv (w1.distribute_unfulfilled_requests.update_requests) :=
    mid_update (mid_of_inv (inv_distribute
      (inv_spawn (inv_age (reachable_inv h) (w.age + 1)) hs)))
  refine ⟨?_, hmid.assigned_in_pool, ⟨_, cleanup_eq_of_mid hmid⟩⟩
  intro v hex
  unfold World.cleanup_requests
  rw [cleanupLoop_eq_none _ _ _ hex]
  rfl

theorem cleanup_panic_unreachable_witness :
    (∀ v : World, (∃ r ∈ v.active_requests, r.is_alive = false ∧ ∃ tid,
        r.assigned_taxi = some tid ∧ tid ∉ v.taxis.map (fun t => t.id)) →
      v.cleanup_requests = none)
    ∧ (∀ r ∈ (World.distribute_unfulfilled_requests
          { World.new 2 1 1 1 (fun _ => true) with
            age := 1, rngIdx := 1, active_requests := [Request.new 1],
            nextId := 2 }).update_requests.active_requests,
        ∀ tid, r.assigned_taxi = some tid →
          ∃ t ∈ (World.distribute_unfulfilled_requests
            { World.new 2 1 1 1 (fun _ => true) with
              age := 1, rngIdx := 1, active_requests := [Request.new 1],
              nextId := 2 }).update_requests.taxis, t.id = tid)
    ∧ ∃ w2, (World.distribute_unfulfilled_requests
          { World.new 2 1 1 1 (fun _ => true) with
            age := 1, rngIdx := 1, active_requests := [Request.new 1],
            nextId := 2 }).update_requests.cleanup_requests = some w2 :=
  cleanup_panic_unreachable (Reachable.init 2 1 1 1 (fun _ => true)) rfl
